import Mathlib

/-!
Shallow embedding of the value-serialization engine of `src/main.js`
(`serializeForPostMessage` and its inner helpers `getErrorDetails` and
`serialize`), together with proofs about the claims of the specification.

Modelling choices:

* Runtime values (`JSVal`) are primitives plus references (`JSVal.ref`) into a
  heap (`Heap : Nat → ObjData`).  Object identity — which is what the
  `WeakSet` cycle tracker compares — is the heap id, so cyclic structures are
  representable as heaps whose entries point back at themselves.
* A property access (`value[key]`) may hit a throwing getter; a property is
  therefore a `PropVal`: either an ordinary value or a thrown failure carrying
  the failure's message (thrown runtime values are modelled by their
  `.message` string, which is all the source reads from them).
* `serialize`'s recursion is depth-guarded in the source (`currentDepth >
  maxDepth` returns a marker before any descent).  The embedding makes the
  implicit call-stack budget explicit: `serializeG` consumes one unit of gas
  per recursive descent, and running out of gas models a stack overflow.
  `serialize` instantiates the gas with `max 1 (maxDepth + 2 - depth)`, which
  is proved sufficient (the gas-irrelevance and no-overflow theorems), so the
  wrapper computes exactly what the bounded recursion of the source computes.
* The serializer's output (`OutVal`) is an ordinary runtime tree: fresh
  arrays/objects built by the source, primitives passed through, and —
  important for the invariant claims — possibly *raw* input values copied
  into an Error record's extra fields (`OutVal.sym` / `OutVal.ref`).
* Dates: a `Date` whose time value is NaN throws `RangeError("Invalid time
  value")` from `toISOString`; `ObjData.date none` models such an invalid
  date, which is the throw source that exercises the top-level catch.
* `String(arg)` (used by the catch branch of `serializeForPostMessage`) is
  modelled by `jsToStringG`: recursive through arrays exactly as
  `Array.prototype.join(",")` (null/undefined elements render empty, every
  other element by its own ToString — an invalid date as `"Invalid Date"`),
  with the engines' cyclic-array guard and an explicit stack budget.  The
  real coercion can itself throw (an own `toString` override, or a symbol
  element making `join` throw); a total embedding cannot reproduce those
  raises, and their consequence for the spec's no-raise guarantee is
  recorded with claim C1.
-/

/-- A JavaScript number: a finite value (modelled as an integer; fractional
doubles are not needed by any claim) or one of the non-finite values. -/
inductive JSNum where
  | fin (n : Int)
  | nan
  | inf
  | negInf
deriving DecidableEq

/-- A runtime value: a primitive, a symbol, or a reference into the heap.
Strings, booleans, numbers, `null`, `undefined` and symbols are immediate;
everything with identity (objects, arrays, functions, errors, dates, …)
lives behind a `ref`. -/
inductive JSVal where
  | null
  | undefined
  | bool (b : Bool)
  | num (n : JSNum)
  | str (s : String)
  | sym (description : Option String)
  | ref (id : Nat)
deriving DecidableEq

/-- The result of one property access: the value, or a thrown failure
(carrying the thrown error's message, which is what the catch blocks of the
source read from it). -/
inductive PropVal where
  | val (v : JSVal)
  | thrown (message : String)
deriving DecidableEq

/-- The element-specific data of a DOM node that also behaves as an element
(`value instanceof Element`).  `idAttr`/`className` are `""` when the
attribute is unset, exactly as in the DOM. -/
structure ElementData where
  idAttr : String
  className : String
  innerHTML : String
deriving DecidableEq

/-- The heap-resident kinds of values that `serialize` dispatches on, in the
source's vocabulary: error instances, promises, dates (`none` = invalid
date), regexps, DOM nodes (`element = none` for non-element nodes, whose
`id`/`className` read as `undefined`), functions, arrays and plain objects. -/
inductive ObjData where
  | err (name message stack : String) (extra : List (String × PropVal))
  | promise
  | date (iso : Option String)
  | regexp (source flags : String)
  | node (nodeName : String) (nodeType : Int) (element : Option ElementData)
  | func (name : String) (src : String)
  | arr (elems : List JSVal)
  | plain (props : List (String × PropVal))
deriving DecidableEq

/-- A heap: what every reference id points at. -/
abbrev Heap : Type := Nat → ObjData

mutual

/-- An output value of the serializer: primitives and strings pass through,
the serializer builds fresh arrays (`list`) and fresh plain objects (`obj`),
and raw input values can be copied through unchanged (`sym`, `ref`) — the
latter two only ever arise from `getErrorDetails` copying a non-standard
error property verbatim. -/
inductive OutVal where
  | null
  | undefined
  | bool (b : Bool)
  | num (n : JSNum)
  | str (s : String)
  | sym (description : Option String)
  | ref (id : Nat)
  | list (elems : OutList)
  | obj (fields : OutFields)
deriving DecidableEq

/-- The elements of an output array, in order. -/
inductive OutList where
  | nil
  | cons (head : OutVal) (tail : OutList)
deriving DecidableEq

/-- The fields of an output object, in insertion order. -/
inductive OutFields where
  | nil
  | cons (key : String) (val : OutVal) (tail : OutFields)
deriving DecidableEq

end

mutual

/-- Transport safety: the output tree consists only of primitives, strings
and plain sequences/mappings — no symbol and no reference to a host object
(function, DOM node, …) occurs anywhere. -/
def transportSafe : OutVal → Bool
  | .null => true
  | .undefined => true
  | .bool _ => true
  | .num _ => true
  | .str _ => true
  | .sym _ => false
  | .ref _ => false
  | .list es => transportSafeList es
  | .obj fs => transportSafeFields fs

/-- All elements of an output array are transport safe. -/
def transportSafeList : OutList → Bool
  | .nil => true
  | .cons x xs => transportSafe x && transportSafeList xs

/-- All field values of an output object are transport safe. -/
def transportSafeFields : OutFields → Bool
  | .nil => true
  | .cons _ v xs => transportSafe v && transportSafeFields xs

end

/-- The fields of an output object as an ordinary association list. -/
def fieldsToList : OutFields → List (String × OutVal)
  | .nil => []
  | .cons k v xs => (k, v) :: fieldsToList xs

/-- The fields of an output value (empty unless it is an object). -/
def fieldsOf : OutVal → OutFields
  | .obj fields => fields
  | _ => .nil

/-- Property lookup on an output value, JS-style: the first field with the
given key (keys are unique in objects the source builds). -/
def getField (v : OutVal) (k : String) : Option OutVal :=
  ((fieldsToList (fieldsOf v)).find? (fun p => p.1 == k)).map (fun p => p.2)

/-- A raw runtime value copied unchanged into the output tree
(`errorObj[key] = error[key]` in `getErrorDetails`). -/
def leak : JSVal → OutVal
  | .null => .null
  | .undefined => .undefined
  | .bool b => .bool b
  | .num n => .num n
  | .str s => .str s
  | .sym d => .sym d
  | .ref id => .ref id

/-- `value.description || 'unknown'`: an absent or empty (falsy) description
becomes `"unknown"`. -/
def symDesc : Option String → String
  | none => "unknown"
  | some s => if s = "" then "unknown" else s

/-- `value.toString().substring(0, 200) + (value.toString().length > 200 ? '...' : '')`. -/
def funcSource (src : String) : String :=
  src.take 200 ++ (if src.length > 200 then "..." else "")

/-- `value.id || undefined`: a non-element node's `id` reads as `undefined`,
and an element's empty (falsy) `id` string is coerced to `undefined`; the
key stays present in the record either way. -/
def nodeIdField : Option ElementData → OutVal
  | some e => if e.idAttr = "" then .undefined else .str e.idAttr
  | none => .undefined

/-- `value.className || undefined`, as for `nodeIdField`. -/
def nodeClassField : Option ElementData → OutVal
  | some e => if e.className = "" then .undefined else .str e.className
  | none => .undefined

/-- `value instanceof Element ? value.innerHTML : undefined`. -/
def nodeInnerHTMLField : Option ElementData → OutVal
  | some e => .str e.innerHTML
  | none => .undefined

/-- JS assignment `obj[key] = v` on an object represented by its field list:
an existing key keeps its position and gets the new value, a new key is
appended. -/
def setKeyFields : OutFields → String → OutVal → OutFields
  | .nil, k, v => .cons k v .nil
  | .cons k0 v0 rest, k, v =>
    if k0 = k then .cons k0 v rest else .cons k0 v0 (setKeyFields rest k v)

/-- How `getErrorDetails` renders one non-standard error property: the raw
value on success, the fallback string when the property access throws. -/
def renderExtra : PropVal → OutVal
  | .val v => leak v
  | .thrown _ => .str "[Unable to access property]"

/-- The loop of `getErrorDetails` over `Object.getOwnPropertyNames(error)`:
keys `name`/`message`/`stack` are skipped, every other own property is
assigned into the record (raw value, or the access-failure fallback). -/
def addExtraProps (acc : OutFields) : List (String × PropVal) → OutFields
  | [] => acc
  | kv :: rest =>
    if kv.1 = "name" ∨ kv.1 = "message" ∨ kv.1 = "stack" then addExtraProps acc rest
    else addExtraProps (setKeyFields acc kv.1 (renderExtra kv.2)) rest

/-- The record literal `{__type: 'Error', name, message, stack}` that
`getErrorDetails` starts from. -/
def errBase (name message stack : String) : OutFields :=
  .cons "__type" (.str "Error")
    (.cons "name" (.str name)
      (.cons "message" (.str message)
        (.cons "stack" (.str stack) .nil)))

/-- `getErrorDetails`: the tagged Error record with `name`, `message`,
`stack` and every other own property of the error copied in (raw). -/
def getErrorDetails (name message stack : String)
    (extra : List (String × PropVal)) : OutVal :=
  .obj (addExtraProps (errBase name message stack) extra)

/-- Decimal rendering of a number, for the `String()` coercion model. -/
def jsNumToString : JSNum → String
  | .nan => "NaN"
  | .inf => "Infinity"
  | .negInf => "-Infinity"
  | .fin n => toString n

/-- `String()` on a non-reference value. -/
def jsPrimToString : JSVal → String
  | .null => "null"
  | .undefined => "undefined"
  | .bool b => if b then "true" else "false"
  | .num n => jsNumToString n
  | .str s => s
  | .sym d => "Symbol(" ++ d.getD "" ++ ")"
  | .ref _ => "[object Object]"

/-- `Array.prototype.join` element rendering: `null` and `undefined`
elements become the empty string, every other element is converted by the
given ToString. -/
def joinElem (f : JSVal → String) (e : JSVal) : String :=
  match e with
  | .null => ""
  | .undefined => ""
  | _ => f e

/-- Model of the host `String()` coercion used by the catch branch
(`String(arg)`), recursive as in the engines: an error renders as
`name: message`, an invalid date as `"Invalid Date"` (a valid one by its
stored time string), a function by its source text, and an array by
`Array.prototype.join(",")` over its elements — recursively, with the
engines' cyclic-array guard (an array already being joined renders as the
empty string) and an explicit stack budget `gas` consumed one unit per
array descent (realizable heaps have finitely many arrays, so the guard
makes every large enough budget compute the same string; the budget-0
fallback renders one shallow step).  The real coercion can also throw —
a symbol element makes `join` throw a TypeError, and an own `toString`
override can throw — raise paths a total model cannot reproduce; their
consequence for the no-raise claim is recorded with claim C1. -/
def jsToStringG (h : Heap) : Nat → List Nat → JSVal → String
  | 0 => fun _ v => jsPrimToString v
  | g + 1 => fun visited v =>
    match v with
    | .ref id =>
      match h id with
      | .err n m _ _ => if m = "" then n else n ++ ": " ++ m
      | .promise => "[object Promise]"
      | .date iso => iso.getD "Invalid Date"
      | .regexp source flags => "/" ++ source ++ "/" ++ flags
      | .node nodeName _ _ => "[object " ++ nodeName ++ "]"
      | .func _ src => src
      | .arr elems =>
        if id ∈ visited then ""
        else String.intercalate "," (elems.map (joinElem (jsToStringG h g (id :: visited))))
      | .plain _ => "[object Object]"
    | v2 => jsPrimToString v2

/-- `String(arg)`: the coercion at the engine's stack budget — by the
cyclic-array guard, every budget at least the number of distinct arrays
along a descent chain computes the same string, and 1000 covers every
value in this development. -/
def jsToString (h : Heap) (v : JSVal) : String :=
  jsToStringG h 1000 [] v

/-- `value.map(item => serialize(item, currentDepth + 1))` with the
serializer for the incremented depth passed in as `f`: elements in order,
threading the (mutable, shared) seen set; a thrown failure aborts the map
and propagates. -/
def serializeListF
    (f : JSVal → Nat → List Nat → List Nat × Except String OutVal) :
    List JSVal → Nat → List Nat → List Nat × Except String OutList
  | [], _, seen => (seen, .ok .nil)
  | x :: rest, d, seen =>
    match f x d seen with
    | (seen1, .error e) => (seen1, .error e)
    | (seen1, .ok t) =>
      match serializeListF f rest d seen1 with
      | (seen2, .error e) => (seen2, .error e)
      | (seen2, .ok ts) => (seen2, .ok (.cons t ts))

/-- The property loop of the generic-object branch: each own property is
read and serialized inside a `try`; a failure (of the property read or of
the recursive serialization) is caught and replaced for that field only by
`'[Unable to serialize: ' + e.message + ']'`, and iteration continues with
the seen-set mutations made so far kept. -/
def serializePropsF
    (f : JSVal → Nat → List Nat → List Nat × Except String OutVal) :
    List (String × PropVal) → Nat → List Nat → List Nat × OutFields
  | [], _, seen => (seen, .nil)
  | (k, pv) :: rest, d, seen =>
    match pv with
    | .thrown e =>
      match serializePropsF f rest d seen with
      | (seen2, fields) =>
        (seen2, .cons k (.str ("[Unable to serialize: " ++ e ++ "]")) fields)
    | .val pv2 =>
      match f pv2 d seen with
      | (seen1, .error e) =>
        match serializePropsF f rest d seen1 with
        | (seen2, fields) =>
          (seen2, .cons k (.str ("[Unable to serialize: " ++ e ++ "]")) fields)
      | (seen1, .ok t) =>
        match serializePropsF f rest d seen1 with
        | (seen2, fields) => (seen2, .cons k t fields)

/-- The circular-reference result: the seen set unchanged, the marker
string returned. -/
def circRes (seen : List Nat) : List Nat × Except String OutVal :=
  (seen, .ok (.str "[Circular Reference]"))

/-- The inner `serialize(value, currentDepth)` of the source, with the call
stack made explicit as gas (one unit per recursive descent; gas 0 models a
stack overflow, which `serialize` below is given enough gas never to hit).
Branch order follows the source: depth guard, `null`/`undefined`
passthrough, error instances, number special-casing, symbols, primitive
passthrough, cycle check, `Promise`/`Date`/`RegExp`/DOM-node/function
records, then — only now marking the value as seen — arrays and generic
objects. -/
def serializeG (h : Heap) (maxD : Nat) :
    Nat → JSVal → Nat → List Nat → List Nat × Except String OutVal
  | 0 => fun _ _ seen => (seen, .error "Maximum call stack size exceeded")
  | g + 1 => fun v d seen =>
    if d > maxD then (seen, .ok (.str "[Max Depth Exceeded]"))
    else
      match v with
      | .null => (seen, .ok .null)
      | .undefined => (seen, .ok .undefined)
      | .num .nan => (seen, .ok (.str "NaN"))
      | .num .inf => (seen, .ok (.str "Infinity"))
      | .num .negInf => (seen, .ok (.str "-Infinity"))
      | .num (.fin m) => (seen, .ok (.num (.fin m)))
      | .sym dsc => (seen, .ok (.str ("[Symbol: " ++ symDesc dsc ++ "]")))
      | .str s => (seen, .ok (.str s))
      | .bool b => (seen, .ok (.bool b))
      | .ref id =>
        match h id with
        | .err n m s extra => (seen, .ok (getErrorDetails n m s extra))
        | .promise =>
          if id ∈ seen then circRes seen
          else
            (seen, .ok (.obj (.cons "__type" (.str "Promise")
              (.cons "state" (.str "pending") .nil))))
        | .date iso =>
          if id ∈ seen then circRes seen
          else
            match iso with
            | some s =>
              (seen, .ok (.obj (.cons "__type" (.str "Date")
                (.cons "value" (.str s) .nil))))
            | none => (seen, .error "Invalid time value")
        | .regexp source flags =>
          if id ∈ seen then circRes seen
          else
            (seen, .ok (.obj (.cons "__type" (.str "RegExp")
              (.cons "source" (.str source)
                (.cons "flags" (.str flags) .nil)))))
        | .node nodeName nodeType element =>
          if id ∈ seen then circRes seen
          else
            (seen, .ok (.obj (.cons "__type" (.str "DOMNode")
              (.cons "nodeName" (.str nodeName)
                (.cons "nodeType" (.num (.fin nodeType))
                  (.cons "id" (nodeIdField element)
                    (.cons "className" (nodeClassField element)
                      (.cons "innerHTML" (nodeInnerHTMLField element) .nil))))))))
        | .func name src =>
          if id ∈ seen then circRes seen
          else
            (seen, .ok (.obj (.cons "__type" (.str "Function")
              (.cons "name" (.str (if name = "" then "anonymous" else name))
                (.cons "source" (.str (funcSource src)) .nil)))))
        | .arr elems =>
          if id ∈ seen then circRes seen
          else
            match serializeListF (serializeG h maxD g) elems (d + 1) (id :: seen) with
            | (seen2, .ok ts) => (seen2, .ok (.list ts))
            | (seen2, .error e) => (seen2, .error e)
        | .plain props =>
          if id ∈ seen then circRes seen
          else
            match serializePropsF (serializeG h maxD g) props (d + 1) (id :: seen) with
            | (seen2, fields) => (seen2, .ok (.obj fields))

/-- The inner `serialize` of the source as a function of value, depth and
seen set: the gas `max 1 (maxD + 2 - d)` is enough for the depth-guarded
recursion (proved by the gas-irrelevance and no-overflow theorems), so this
is the total function the bounded recursion of the source computes. -/
def serialize (h : Heap) (maxD : Nat) (v : JSVal) (d : Nat) (seen : List Nat) :
    List Nat × Except String OutVal :=
  serializeG h maxD (max 1 (maxD + 2 - d)) v d seen

/-- `serializeForPostMessage(arg, depth, maxDepth)` (source defaults:
`depth = 0`, `maxDepth = 3`): runs the inner serializer with a fresh seen
set and catches any thrown failure, converting it into the
`SerializationError` tagged record carrying the failure message and the
`String()` coercion of the original argument. -/
def serializeForPostMessage (h : Heap) (arg : JSVal) (depth : Nat) (maxDepth : Nat) :
    OutVal :=
  match serialize h maxDepth arg depth [] with
  | (_, .ok t) => t
  | (_, .error e) =>
    .obj (.cons "__type" (.str "SerializationError")
      (.cons "message" (.str e)
        (.cons "value" (.str (jsToString h arg)) .nil)))

/-! ## Helper lemmas -/

/-- Unfold `serialize` with its gas in explicit successor form. -/
theorem serialize_unfold (h : Heap) (maxD : Nat) (v : JSVal) (d : Nat) (seen : List Nat) :
    serialize h maxD v d seen =
      serializeG h maxD ((max 1 (maxD + 2 - d) - 1) + 1) v d seen := by
  unfold serialize
  congr 1
  omega

/-- `serializeListF` only depends on the serializer's behaviour at the
depth it is called with. -/
theorem serializeListF_congr
    {f₁ f₂ : JSVal → Nat → List Nat → List Nat × Except String OutVal}
    {d : Nat} (hf : ∀ x s, f₁ x d s = f₂ x d s) :
    ∀ l s, serializeListF f₁ l d s = serializeListF f₂ l d s := by
  intro l
  induction l with
  | nil => intro s; rfl
  | cons x rest ih =>
    intro s
    simp only [serializeListF, hf, ih]

/-- `serializePropsF` only depends on the serializer's behaviour at the
depth it is called with. -/
theorem serializePropsF_congr
    {f₁ f₂ : JSVal → Nat → List Nat → List Nat × Except String OutVal}
    {d : Nat} (hf : ∀ x s, f₁ x d s = f₂ x d s) :
    ∀ l s, serializePropsF f₁ l d s = serializePropsF f₂ l d s := by
  intro l
  induction l with
  | nil => intro s; rfl
  | cons kv rest ih =>
    intro s
    simp only [serializePropsF, hf, ih]

/-- Gas irrelevance: any two gas budgets at least `max 1 (maxD + 2 - d)`
give the same result — the recursion never needs more than `maxD + 2 - d`
nested calls because the tracked depth strictly increases on every descent
and the guard stops past `maxD`. -/
theorem serializeG_gasEq (h : Heap) (maxD : Nat) :
    ∀ g g' v d seen, max 1 (maxD + 2 - d) ≤ g → max 1 (maxD + 2 - d) ≤ g' →
      serializeG h maxD g v d seen = serializeG h maxD g' v d seen := by
  intro g
  induction g with
  | zero =>
    intro g' v d seen hg hg'
    exact absurd hg (by omega)
  | succ g ih =>
    intro g' v d seen hg hg'
    cases g' with
    | zero => exact absurd hg' (by omega)
    | succ g'' =>
      by_cases hd : d > maxD
      · simp only [serializeG, if_pos hd]
      · have hg1 : max 1 (maxD + 2 - (d + 1)) ≤ g := by omega
        have hg2 : max 1 (maxD + 2 - (d + 1)) ≤ g'' := by omega
        have hrec : ∀ x s, serializeG h maxD g x (d + 1) s = serializeG h maxD g'' x (d + 1) s :=
          fun x s => ih g'' x (d + 1) s hg1 hg2
        simp only [serializeG, if_neg hd]
        cases v with
        | ref id =>
          cases hh : h id with
          | arr elems =>
            simp only [hh]
            by_cases hs : id ∈ seen
            · simp only [if_pos hs]
            · simp only [if_neg hs]
              rw [serializeListF_congr hrec elems (id :: seen)]
          | plain props =>
            simp only [hh]
            by_cases hs : id ∈ seen
            · simp only [if_pos hs]
            · simp only [if_neg hs]
              rw [serializePropsF_congr hrec props (id :: seen)]
          | err n m s extra => simp only [hh]
          | promise => simp only [hh]
          | date iso => simp only [hh]
          | regexp source flags => simp only [hh]
          | node nodeName nodeType element => simp only [hh]
          | func name src => simp only [hh]
        | null => rfl
        | undefined => rfl
        | bool b => rfl
        | num n => cases n <;> rfl
        | sym dsc => rfl
        | str s => rfl

/-- If the element serializer never reports the given failure, neither does
the array map. -/
theorem serializeListF_errNe
    {f : JSVal → Nat → List Nat → List Nat × Except String OutVal}
    {d : Nat} {msg : String}
    (hf : ∀ x s, (f x d s).2 ≠ Except.error msg) :
    ∀ l s, (serializeListF f l d s).2 ≠ Except.error msg := by
  intro l
  induction l with
  | nil => intro s; simp [serializeListF]
  | cons x rest ih =>
    intro s
    simp only [serializeListF]
    rcases hfx : f x d s with ⟨s1, r⟩
    rcases r with e | t
    · have hne := hf x s
      rw [hfx] at hne
      simpa using hne
    · dsimp only
      rcases hrest : serializeListF f rest d s1 with ⟨s2, r2⟩
      rcases r2 with e | ts
      · have hne := ih s1
        rw [hrest] at hne
        simpa using hne
      · simp

/-- The stack budget `max 1 (maxD + 2 - d)` never runs out: the bounded
recursion of the source terminates without a stack overflow. -/
theorem serializeG_noOverflow (h : Heap) (maxD : Nat) :
    ∀ g v d seen, max 1 (maxD + 2 - d) ≤ g →
      (serializeG h maxD g v d seen).2 ≠ Except.error "Maximum call stack size exceeded" := by
  intro g
  induction g with
  | zero => intro v d seen hg; exact absurd hg (by omega)
  | succ g ih =>
    intro v d seen hg
    by_cases hd : d > maxD
    · simp [serializeG, if_pos hd]
    · have hg1 : max 1 (maxD + 2 - (d + 1)) ≤ g := by omega
      have hrec : ∀ x s,
          (serializeG h maxD g x (d + 1) s).2 ≠
            Except.error "Maximum call stack size exceeded" :=
        fun x s => ih x (d + 1) s hg1
      simp only [serializeG, if_neg hd]
      cases v with
      | ref id =>
        cases hh : h id with
        | err n m s extra => simp [hh]
        | promise =>
          simp only [hh]
          by_cases hs : id ∈ seen <;> simp [hs, circRes]
        | date iso =>
          simp only [hh]
          by_cases hs : id ∈ seen
          · simp [hs, circRes]
          · rcases iso with _ | s <;> simp [hs]
        | regexp source flags =>
          simp only [hh]
          by_cases hs : id ∈ seen <;> simp [hs, circRes]
        | node nodeName nodeType element =>
          simp only [hh]
          by_cases hs : id ∈ seen <;> simp [hs, circRes]
        | func name src =>
          simp only [hh]
          by_cases hs : id ∈ seen <;> simp [hs, circRes]
        | arr elems =>
          simp only [hh]
          by_cases hs : id ∈ seen
          · simp [hs, circRes]
          · simp only [if_neg hs]
            rcases hl : serializeListF (serializeG h maxD g) elems (d + 1) (id :: seen) with ⟨s2, r2⟩
            rcases r2 with e | ts
            · have hne := serializeListF_errNe hrec elems (id :: seen)
              rw [hl] at hne
              simpa using hne
            · simp
        | plain props =>
          simp only [hh]
          by_cases hs : id ∈ seen <;> simp [hs, circRes]
      | null => simp
      | undefined => simp
      | bool b => simp
      | num n => cases n <;> simp
      | sym dsc => simp
      | str s => simp

/-- A property outcome that cannot leak a host value: either the access
throws, or the value is a primitive (not a symbol, not a reference). -/
def primSafe : PropVal → Bool
  | .val (JSVal.ref _) => false
  | .val (JSVal.sym _) => false
  | _ => true

/-- Heap condition for the amended transport-safety invariant: every error
object's non-standard own properties are primitives (or throw on access). -/
def errExtrasOk (h : Heap) : Prop :=
  ∀ id n m s extra, h id = ObjData.err n m s extra → ∀ kv ∈ extra, primSafe kv.2 = true

/-- A leaked primitive is transport safe. -/
theorem leak_transportSafe {v : JSVal} (hv : primSafe (.val v) = true) :
    transportSafe (leak v) = true := by
  cases v <;> first
    | rfl
    | simp [primSafe] at hv

/-- A rendered error extra property is transport safe when the underlying
property is primitive or throwing. -/
theorem renderExtra_transportSafe {pv : PropVal} (hpv : primSafe pv = true) :
    transportSafe (renderExtra pv) = true := by
  cases pv with
  | val v => simpa [renderExtra] using leak_transportSafe hpv
  | thrown e => rfl

/-- `setKeyFields` preserves transport safety of the field list. -/
theorem setKeyFields_transportSafe : ∀ {fs : OutFields} {k : String} {v : OutVal},
    transportSafeFields fs = true → transportSafe v = true →
    transportSafeFields (setKeyFields fs k v) = true
  | .nil, k, v, _, hv => by simp [setKeyFields, transportSafeFields, hv]
  | .cons k0 v0 rest, k, v, hfs, hv => by
    simp only [transportSafeFields, Bool.and_eq_true] at hfs
    by_cases he : k0 = k
    · simp [setKeyFields, he, transportSafeFields, hv, hfs.2]
    · simp [setKeyFields, he, transportSafeFields, hfs.1,
        setKeyFields_transportSafe hfs.2 hv]

/-- The `getErrorDetails` property loop preserves transport safety when
every extra property is primitive or throwing. -/
theorem addExtraProps_transportSafe {extra : List (String × PropVal)} :
    ∀ {acc : OutFields}, transportSafeFields acc = true →
      (∀ kv ∈ extra, primSafe kv.2 = true) →
      transportSafeFields (addExtraProps acc extra) = true := by
  induction extra with
  | nil => intro acc hacc _; simpa [addExtraProps] using hacc
  | cons kv rest ih =>
    intro acc hacc hextra
    simp only [addExtraProps]
    by_cases hk : kv.1 = "name" ∨ kv.1 = "message" ∨ kv.1 = "stack"
    · rw [if_pos hk]
      exact ih hacc (fun kv' h' => hextra kv' (List.mem_cons_of_mem _ h'))
    · rw [if_neg hk]
      exact ih
        (setKeyFields_transportSafe hacc
          (renderExtra_transportSafe (hextra kv (List.mem_cons_self _ _))))
        (fun kv' h' => hextra kv' (List.mem_cons_of_mem _ h'))

/-- An Error record is transport safe when the error's extra own properties
are primitives (or throw on access). -/
theorem getErrorDetails_transportSafe {n m s : String} {extra : List (String × PropVal)}
    (hextra : ∀ kv ∈ extra, primSafe kv.2 = true) :
    transportSafe (getErrorDetails n m s extra) = true := by
  have hbase : transportSafeFields (errBase n m s) = true := rfl
  simpa [getErrorDetails, transportSafe] using addExtraProps_transportSafe hbase hextra

/-- The `id` field of a DOM-node record is transport safe. -/
theorem nodeIdField_transportSafe (el : Option ElementData) :
    transportSafe (nodeIdField el) = true := by
  cases el with
  | none => rfl
  | some e =>
    by_cases he : e.idAttr = "" <;> simp [nodeIdField, he, transportSafe]

/-- The `className` field of a DOM-node record is transport safe. -/
theorem nodeClassField_transportSafe (el : Option ElementData) :
    transportSafe (nodeClassField el) = true := by
  cases el with
  | none => rfl
  | some e =>
    by_cases he : e.className = "" <;> simp [nodeClassField, he, transportSafe]

/-- The `innerHTML` field of a DOM-node record is transport safe. -/
theorem nodeInnerHTMLField_transportSafe (el : Option ElementData) :
    transportSafe (nodeInnerHTMLField el) = true := by
  cases el <;> rfl

/-- Successful array maps of a safe element serializer are transport safe. -/
theorem serializeListF_transportSafe
    {f : JSVal → Nat → List Nat → List Nat × Except String OutVal} {d : Nat}
    (hf : ∀ x s s1 t, f x d s = (s1, Except.ok t) → transportSafe t = true) :
    ∀ l s s2 ts, serializeListF f l d s = (s2, Except.ok ts) →
      transportSafeList ts = true := by
  intro l
  induction l with
  | nil =>
    intro s s2 ts hEq
    simp only [serializeListF, Prod.mk.injEq, Except.ok.injEq] at hEq
    rw [← hEq.2]
    rfl
  | cons x rest ih =>
    intro s s2 ts hEq
    simp only [serializeListF] at hEq
    rcases hfx : f x d s with ⟨s1, r⟩
    rw [hfx] at hEq
    rcases r with e | t
    · simp at hEq
    · dsimp only at hEq
      rcases hrest : serializeListF f rest d s1 with ⟨s3, r3⟩
      rw [hrest] at hEq
      rcases r3 with e | ts2
      · simp at hEq
      · simp only [Prod.mk.injEq, Except.ok.injEq] at hEq
        rw [← hEq.2]
        simp only [transportSafeList, Bool.and_eq_true]
        exact ⟨hf x s s1 t hfx, ih s1 s3 ts2 hrest⟩

/-- The property-loop output of a safe serializer is transport safe (failed
properties are replaced by marker strings, which are safe). -/
theorem serializePropsF_transportSafe
    {f : JSVal → Nat → List Nat → List Nat × Except String OutVal} {d : Nat}
    (hf : ∀ x s s1 t, f x d s = (s1, Except.ok t) → transportSafe t = true) :
    ∀ l s s2 fields, serializePropsF f l d s = (s2, fields) →
      transportSafeFields fields = true := by
  intro l
  induction l with
  | nil =>
    intro s s2 fields hEq
    simp only [serializePropsF, Prod.mk.injEq] at hEq
    rw [← hEq.2]
    rfl
  | cons kv rest ih =>
    intro s s2 fields hEq
    rcases kv with ⟨k, pv⟩
    simp only [serializePropsF] at hEq
    rcases pv with v | e
    · dsimp only at hEq
      rcases hfx : f v d s with ⟨s1, r⟩
      rw [hfx] at hEq
      rcases r with e | t
      · dsimp only at hEq
        simp only [Prod.mk.injEq] at hEq
        rw [← hEq.2]
        simp only [transportSafeFields, Bool.and_eq_true]
        exact ⟨rfl, ih s1 (serializePropsF f rest d s1).1 (serializePropsF f rest d s1).2 rfl⟩
      · dsimp only at hEq
        simp only [Prod.mk.injEq] at hEq
        rw [← hEq.2]
        simp only [transportSafeFields, Bool.and_eq_true]
        exact ⟨hf v s s1 t hfx, ih s1 (serializePropsF f rest d s1).1 (serializePropsF f rest d s1).2 rfl⟩
    · dsimp only at hEq
      simp only [Prod.mk.injEq] at hEq
      rw [← hEq.2]
      simp only [transportSafeFields, Bool.and_eq_true]
      exact ⟨rfl, ih s (serializePropsF f rest d s).1 (serializePropsF f rest d s).2 rfl⟩

/-- On success the serializer's output is transport safe, provided the
heap's error objects carry only primitive (or throwing) non-standard
properties (those are copied raw, everything else is sanitized). -/
theorem serializeG_transportSafe (h : Heap) (maxD : Nat) (hok : errExtrasOk h) :
    ∀ g v d seen s2 t, serializeG h maxD g v d seen = (s2, Except.ok t) →
      transportSafe t = true := by
  intro g
  induction g with
  | zero =>
    intro v d seen s2 t hEq
    simp [serializeG] at hEq
  | succ g ih =>
    intro v d seen s2 t hEq
    have hf : ∀ x s s1 t1, serializeG h maxD g x (d + 1) s = (s1, Except.ok t1) →
        transportSafe t1 = true := fun x s s1 t1 hx => ih x (d + 1) s s1 t1 hx
    simp only [serializeG] at hEq
    by_cases hd : d > maxD
    · rw [if_pos hd] at hEq
      simp only [Prod.mk.injEq, Except.ok.injEq] at hEq
      rw [← hEq.2]
      rfl
    · rw [if_neg hd] at hEq
      cases v with
      | null =>
        simp only [Prod.mk.injEq, Except.ok.injEq] at hEq
        rw [← hEq.2]; rfl
      | undefined =>
        simp only [Prod.mk.injEq, Except.ok.injEq] at hEq
        rw [← hEq.2]; rfl
      | bool b =>
        simp only [Prod.mk.injEq, Except.ok.injEq] at hEq
        rw [← hEq.2]; rfl
      | str s =>
        simp only [Prod.mk.injEq, Except.ok.injEq] at hEq
        rw [← hEq.2]; rfl
      | sym dsc =>
        simp only [Prod.mk.injEq, Except.ok.injEq] at hEq
        rw [← hEq.2]; rfl
      | num n =>
        cases n <;> (simp only [Prod.mk.injEq, Except.ok.injEq] at hEq; rw [← hEq.2]; rfl)
      | ref id =>
        cases hh : h id with
        | err n m s extra =>
          simp only [hh] at hEq
          simp only [Prod.mk.injEq, Except.ok.injEq] at hEq
          rw [← hEq.2]
          exact getErrorDetails_transportSafe (hok id n m s extra hh)
        | promise =>
          simp only [hh] at hEq
          by_cases hs : id ∈ seen
          · rw [if_pos hs] at hEq
            simp only [circRes, Prod.mk.injEq, Except.ok.injEq] at hEq
            rw [← hEq.2]; rfl
          · rw [if_neg hs] at hEq
            simp only [Prod.mk.injEq, Except.ok.injEq] at hEq
            rw [← hEq.2]; rfl
        | date iso =>
          simp only [hh] at hEq
          by_cases hs : id ∈ seen
          · rw [if_pos hs] at hEq
            simp only [circRes, Prod.mk.injEq, Except.ok.injEq] at hEq
            rw [← hEq.2]; rfl
          · rw [if_neg hs] at hEq
            cases iso with
            | some s =>
              simp only [Prod.mk.injEq, Except.ok.injEq] at hEq
              rw [← hEq.2]; rfl
            | none => simp at hEq
        | regexp source flags =>
          simp only [hh] at hEq
          by_cases hs : id ∈ seen
          · rw [if_pos hs] at hEq
            simp only [circRes, Prod.mk.injEq, Except.ok.injEq] at hEq
            rw [← hEq.2]; rfl
          · rw [if_neg hs] at hEq
            simp only [Prod.mk.injEq, Except.ok.injEq] at hEq
            rw [← hEq.2]; rfl
        | node nodeName nodeType element =>
          simp only [hh] at hEq
          by_cases hs : id ∈ seen
          · rw [if_pos hs] at hEq
            simp only [circRes, Prod.mk.injEq, Except.ok.injEq] at hEq
            rw [← hEq.2]; rfl
          · rw [if_neg hs] at hEq
            simp only [Prod.mk.injEq, Except.ok.injEq] at hEq
            rw [← hEq.2]
            simp [transportSafe, transportSafeFields, nodeIdField_transportSafe,
              nodeClassField_transportSafe, nodeInnerHTMLField_transportSafe]
        | func name src =>
          simp only [hh] at hEq
          by_cases hs : id ∈ seen
          · rw [if_pos hs] at hEq
            simp only [circRes, Prod.mk.injEq, Except.ok.injEq] at hEq
            rw [← hEq.2]; rfl
          · rw [if_neg hs] at hEq
            simp only [Prod.mk.injEq, Except.ok.injEq] at hEq
            rw [← hEq.2]; rfl
        | arr elems =>
          simp only [hh] at hEq
          by_cases hs : id ∈ seen
          · rw [if_pos hs] at hEq
            simp only [circRes, Prod.mk.injEq, Except.ok.injEq] at hEq
            rw [← hEq.2]; rfl
          · rw [if_neg hs] at hEq
            rcases hl : serializeListF (serializeG h maxD g) elems (d + 1) (id :: seen) with ⟨s3, r3⟩
            rw [hl] at hEq
            rcases r3 with e | ts
            · simp at hEq
            · dsimp only at hEq
              simp only [Prod.mk.injEq, Except.ok.injEq] at hEq
              rw [← hEq.2]
              simp only [transportSafe]
              exact serializeListF_transportSafe hf elems (id :: seen) s3 ts hl
        | plain props =>
          simp only [hh] at hEq
          by_cases hs : id ∈ seen
          · rw [if_pos hs] at hEq
            simp only [circRes, Prod.mk.injEq, Except.ok.injEq] at hEq
            rw [← hEq.2]; rfl
          · rw [if_neg hs] at hEq
            simp only [Prod.mk.injEq, Except.ok.injEq] at hEq
            rw [← hEq.2]
            simp only [transportSafe]
            exact serializePropsF_transportSafe hf props (id :: seen)
              (serializePropsF (serializeG h maxD g) props (d + 1) (id :: seen)).1
              (serializePropsF (serializeG h maxD g) props (d + 1) (id :: seen)).2 rfl

/-- Whether a heap id denotes a value the cycle tracker ever records: only
arrays and generic (plain) objects are added to `seen` (the `seen.add` of
the source sits after the Error/Promise/Date/RegExp/Node/function returns). -/
def tracked (h : Heap) (id : Nat) : Bool :=
  match h id with
  | .arr _ => true
  | .plain _ => true
  | _ => false

/-- Seen-set growth through an array map: every id in the outgoing seen set
was already in the incoming one or is a tracked (array/plain-object) id. -/
theorem serializeListF_seenTracked {h : Heap}
    {f : JSVal → Nat → List Nat → List Nat × Except String OutVal} {d : Nat}
    (hf : ∀ x s i, i ∈ (f x d s).1 → i ∈ s ∨ tracked h i = true) :
    ∀ l s i, i ∈ (serializeListF f l d s).1 → i ∈ s ∨ tracked h i = true := by
  intro l
  induction l with
  | nil => intro s i hi; exact Or.inl (by simpa [serializeListF] using hi)
  | cons x rest ih =>
    intro s i hi
    simp only [serializeListF] at hi
    rcases hfx : f x d s with ⟨s1, r⟩
    rw [hfx] at hi
    rcases r with e | t
    · exact hf x s i (by rw [hfx]; exact hi)
    · dsimp only at hi
      rcases hrest : serializeListF f rest d s1 with ⟨s2, r2⟩
      rw [hrest] at hi
      have hi2 : i ∈ s2 := by rcases r2 with e | ts <;> simpa using hi
      have h1 : i ∈ s1 ∨ tracked h i = true := ih s1 i (by rw [hrest]; exact hi2)
      rcases h1 with h1 | h1
      · exact hf x s i (by rw [hfx]; exact h1)
      · exact Or.inr h1

/-- Seen-set growth through the property loop, as for arrays. -/
theorem serializePropsF_seenTracked {h : Heap}
    {f : JSVal → Nat → List Nat → List Nat × Except String OutVal} {d : Nat}
    (hf : ∀ x s i, i ∈ (f x d s).1 → i ∈ s ∨ tracked h i = true) :
    ∀ l s i, i ∈ (serializePropsF f l d s).1 → i ∈ s ∨ tracked h i = true := by
  intro l
  induction l with
  | nil => intro s i hi; exact Or.inl (by simpa [serializePropsF] using hi)
  | cons kv rest ih =>
    intro s i hi
    rcases kv with ⟨k, pv⟩
    simp only [serializePropsF] at hi
    rcases pv with v | e
    · dsimp only at hi
      rcases hfx : f v d s with ⟨s1, r⟩
      rw [hfx] at hi
      rcases r with e | t
      · dsimp only at hi
        have h1 := ih s1 i hi
        rcases h1 with h1 | h1
        · exact hf v s i (by rw [hfx]; exact h1)
        · exact Or.inr h1
      · dsimp only at hi
        have h1 := ih s1 i hi
        rcases h1 with h1 | h1
        · exact hf v s i (by rw [hfx]; exact h1)
        · exact Or.inr h1
    · dsimp only at hi
      exact ih s i hi

/-- The cycle-tracking set only ever receives ids of arrays and plain
objects: anything in the outgoing seen set was in the incoming one or is
tracked. -/
theorem serializeG_seenTracked (h : Heap) (maxD : Nat) :
    ∀ g v d seen i, i ∈ (serializeG h maxD g v d seen).1 →
      i ∈ seen ∨ tracked h i = true := by
  intro g
  induction g with
  | zero => intro v d seen i hi; exact Or.inl (by simpa [serializeG] using hi)
  | succ g ih =>
    intro v d seen i hi
    have hf : ∀ x s j, j ∈ (serializeG h maxD g x (d + 1) s).1 →
        j ∈ s ∨ tracked h j = true := fun x s j hj => ih x (d + 1) s j hj
    simp only [serializeG] at hi
    by_cases hd : d > maxD
    · rw [if_pos hd] at hi; exact Or.inl (by simpa using hi)
    · rw [if_neg hd] at hi
      cases v with
      | null => exact Or.inl (by simpa using hi)
      | undefined => exact Or.inl (by simpa using hi)
      | bool b => exact Or.inl (by simpa using hi)
      | str s => exact Or.inl (by simpa using hi)
      | sym dsc => exact Or.inl (by simpa using hi)
      | num n => cases n <;> exact Or.inl (by simpa using hi)
      | ref id =>
        cases hh : h id with
        | err n m s extra =>
          simp only [hh] at hi; exact Or.inl (by simpa using hi)
        | promise =>
          simp only [hh] at hi
          by_cases hs : id ∈ seen
          · rw [if_pos hs] at hi; exact Or.inl (by simpa [circRes] using hi)
          · rw [if_neg hs] at hi; exact Or.inl (by simpa using hi)
        | date iso =>
          simp only [hh] at hi
          by_cases hs : id ∈ seen
          · rw [if_pos hs] at hi; exact Or.inl (by simpa [circRes] using hi)
          · rw [if_neg hs] at hi
            rcases iso with _ | s <;> exact Or.inl (by simpa using hi)
        | regexp source flags =>
          simp only [hh] at hi
          by_cases hs : id ∈ seen
          · rw [if_pos hs] at hi; exact Or.inl (by simpa [circRes] using hi)
          · rw [if_neg hs] at hi; exact Or.inl (by simpa using hi)
        | node nodeName nodeType element =>
          simp only [hh] at hi
          by_cases hs : id ∈ seen
          · rw [if_pos hs] at hi; exact Or.inl (by simpa [circRes] using hi)
          · rw [if_neg hs] at hi; exact Or.inl (by simpa using hi)
        | func name src =>
          simp only [hh] at hi
          by_cases hs : id ∈ seen
          · rw [if_pos hs] at hi; exact Or.inl (by simpa [circRes] using hi)
          · rw [if_neg hs] at hi; exact Or.inl (by simpa using hi)
        | arr elems =>
          simp only [hh] at hi
          by_cases hs : id ∈ seen
          · rw [if_pos hs] at hi; exact Or.inl (by simpa [circRes] using hi)
          · rw [if_neg hs] at hi
            rcases hl : serializeListF (serializeG h maxD g) elems (d + 1) (id :: seen) with ⟨s2, r2⟩
            rw [hl] at hi
            have hi2 : i ∈ s2 := by rcases r2 with e | ts <;> simpa using hi
            have h1 := serializeListF_seenTracked hf elems (id :: seen) i (by rw [hl]; exact hi2)
            rcases h1 with h1 | h1
            · rcases List.mem_cons.mp h1 with h2 | h2
              · right; rw [h2]; simp [tracked, hh]
              · exact Or.inl h2
            · exact Or.inr h1
        | plain props =>
          simp only [hh] at hi
          by_cases hs : id ∈ seen
          · rw [if_pos hs] at hi; exact Or.inl (by simpa [circRes] using hi)
          · rw [if_neg hs] at hi
            dsimp only at hi
            have h1 := serializePropsF_seenTracked hf props (id :: seen) i hi
            rcases h1 with h1 | h1
            · rcases List.mem_cons.mp h1 with h2 | h2
              · right; rw [h2]; simp [tracked, hh]
              · exact Or.inl h2
            · exact Or.inr h1

/-- After `obj[k] = v`, the field `(k, v)` is present. -/
theorem mem_setKeyFields_self : ∀ (fs : OutFields) (k : String) (v : OutVal),
    (k, v) ∈ fieldsToList (setKeyFields fs k v)
  | .nil, k, v => by simp [setKeyFields, fieldsToList]
  | .cons k0 v0 rest, k, v => by
    by_cases he : k0 = k
    · subst he
      simp [setKeyFields, fieldsToList]
    · simp only [setKeyFields, if_neg he, fieldsToList, List.mem_cons]
      exact Or.inr (mem_setKeyFields_self rest k v)

/-- `obj[k] = v` leaves fields with other keys in place. -/
theorem mem_setKeyFields_ne : ∀ (fs : OutFields) (k' : String) (v' : OutVal)
    (k : String) (v : OutVal), k' ≠ k → (k', v') ∈ fieldsToList fs →
    (k', v') ∈ fieldsToList (setKeyFields fs k v)
  | .nil, k', v', k, v, _, hmem => by simp [fieldsToList] at hmem
  | .cons k0 v0 rest, k', v', k, v, hne, hmem => by
    simp only [fieldsToList, List.mem_cons] at hmem
    by_cases he : k0 = k
    · simp only [setKeyFields, if_pos he, fieldsToList, List.mem_cons]
      rcases hmem with hmem | hmem
      · exfalso
        apply hne
        rw [← he]
        exact congrArg Prod.fst hmem
      · exact Or.inr hmem
    · simp only [setKeyFields, if_neg he, fieldsToList, List.mem_cons]
      rcases hmem with hmem | hmem
      · exact Or.inl hmem
      · exact Or.inr (mem_setKeyFields_ne rest k' v' k v hne hmem)

/-- The `getErrorDetails` loop leaves a field in place as long as no
non-skipped extra property shares its key. -/
theorem mem_addExtraProps_preserve : ∀ (extra : List (String × PropVal)) (acc : OutFields)
    (k : String) (v : OutVal),
    (k, v) ∈ fieldsToList acc →
    (∀ kv ∈ extra, ¬(kv.1 = "name" ∨ kv.1 = "message" ∨ kv.1 = "stack") → kv.1 ≠ k) →
    (k, v) ∈ fieldsToList (addExtraProps acc extra)
  | [], acc, k, v, hmem, _ => by simpa [addExtraProps] using hmem
  | kv :: rest, acc, k, v, hmem, hk => by
    simp only [addExtraProps]
    by_cases hstd : kv.1 = "name" ∨ kv.1 = "message" ∨ kv.1 = "stack"
    · rw [if_pos hstd]
      exact mem_addExtraProps_preserve rest acc k v hmem
        (fun kv' h' => hk kv' (List.mem_cons_of_mem _ h'))
    · rw [if_neg hstd]
      exact mem_addExtraProps_preserve rest _ k v
        (mem_setKeyFields_ne acc k v kv.1 (renderExtra kv.2)
          (Ne.symm (hk kv (List.mem_cons_self _ _) hstd)) hmem)
        (fun kv' h' => hk kv' (List.mem_cons_of_mem _ h'))

/-- Every non-standard extra property of the error (keys pairwise distinct,
as own property names are) ends up in the record, rendered raw or as the
access-failure fallback. -/
theorem mem_addExtraProps_extra : ∀ (extra : List (String × PropVal)) (acc : OutFields)
    (k : String) (pv : PropVal),
    (extra.map Prod.fst).Nodup →
    (k, pv) ∈ extra →
    ¬(k = "name" ∨ k = "message" ∨ k = "stack") →
    (k, renderExtra pv) ∈ fieldsToList (addExtraProps acc extra)
  | [], _, k, pv, _, hmem, _ => by simp at hmem
  | kv :: rest, acc, k, pv, hnd, hmem, hstd => by
    simp only [List.map_cons, List.nodup_cons] at hnd
    rcases List.mem_cons.mp hmem with hmem | hmem
    · have hkv : kv = (k, pv) := hmem.symm
      subst hkv
      simp only [addExtraProps]
      rw [if_neg hstd]
      refine mem_addExtraProps_preserve rest _ k (renderExtra pv)
        (mem_setKeyFields_self acc k (renderExtra pv)) ?_
      intro kv' h' _ heq
      apply hnd.1
      have hmem2 := List.mem_map_of_mem Prod.fst h'
      rw [heq] at hmem2
      exact hmem2
    · simp only [addExtraProps]
      by_cases hstd0 : kv.1 = "name" ∨ kv.1 = "message" ∨ kv.1 = "stack"
      · rw [if_pos hstd0]
        exact mem_addExtraProps_extra rest acc k pv hnd.2 hmem hstd
      · rw [if_neg hstd0]
        exact mem_addExtraProps_extra rest _ k pv hnd.2 hmem hstd

/-- The keys of an output object, in order. -/
def fieldsKeys (fs : OutFields) : List String :=
  (fieldsToList fs).map Prod.fst

/-- The property loop emits exactly one field per own property, in order:
a per-property failure never drops the field or aborts the loop. -/
theorem serializePropsF_keys
    {f : JSVal → Nat → List Nat → List Nat × Except String OutVal} :
    ∀ (l : List (String × PropVal)) (d : Nat) (s : List Nat),
      fieldsKeys ((serializePropsF f l d s).2) = l.map Prod.fst := by
  intro l
  induction l with
  | nil => intro d s; rfl
  | cons kv rest ih =>
    intro d s
    have ih2 : ∀ d2 s2,
        List.map Prod.fst (fieldsToList ((serializePropsF f rest d2 s2).2)) =
          List.map Prod.fst rest := fun d2 s2 => by simpa [fieldsKeys] using ih d2 s2
    rcases kv with ⟨k, pv⟩
    simp only [serializePropsF]
    rcases pv with v | e
    · dsimp only
      rcases hfx : f v d s with ⟨s1, r⟩
      rcases r with e | t <;> simp [fieldsKeys, fieldsToList, ih2]
    · dsimp only
      simp [fieldsKeys, fieldsToList, ih2]

/-- A property whose read throws is replaced in place by the fallback
marker carrying the failure message. -/
theorem serializePropsF_thrownMem
    {f : JSVal → Nat → List Nat → List Nat × Except String OutVal} :
    ∀ (l : List (String × PropVal)) (d : Nat) (s : List Nat) (k e : String),
      (k, PropVal.thrown e) ∈ l →
      (k, OutVal.str ("[Unable to serialize: " ++ e ++ "]")) ∈
        fieldsToList ((serializePropsF f l d s).2) := by
  intro l
  induction l with
  | nil => intro d s k e hmem; simp at hmem
  | cons kv rest ih =>
    intro d s k e hmem
    rcases List.mem_cons.mp hmem with hm | hm
    · have hkv : kv = (k, PropVal.thrown e) := hm.symm
      subst hkv
      simp [serializePropsF, fieldsToList]
    · rcases kv with ⟨k0, pv0⟩
      simp only [serializePropsF]
      rcases pv0 with v | e0
      · dsimp only
        rcases hfx : f v d s with ⟨s1, r⟩
        rcases r with e1 | t <;>
          (dsimp only
           simp only [fieldsToList, List.mem_cons]
           exact Or.inr (ih d s1 k e hm))
      · dsimp only
        simp only [fieldsToList, List.mem_cons]
        exact Or.inr (ih d s k e hm)

/-! ## Claim theorems -/

/-- Heap for the C2 counterexample: an error whose extra own property `fn`
holds a function. -/
def heapC2 : Heap := fun i =>
  if i = 0 then ObjData.err "Error" "boom" "stacktrace" [("fn", PropVal.val (JSVal.ref 1))]
  else ObjData.func "f" "() => 1"

/-- Counterexample to claim C2 as stated: an error instance carrying a
function-valued extra own property serializes to an Error record whose
`fn` field is the raw function reference (`errorObj[key] = error[key]`
copies the value verbatim), so the output tree is not composed only of
primitives, strings and plain mappings/sequences. -/
theorem C2_counterexample :
    transportSafe (serializeForPostMessage heapC2 (JSVal.ref 0) 0 3) = false := rfl

/-- Claim C2 (amended): the output of `serializeForPostMessage` is composed
only of primitives, strings and plain mappings/sequences — no function,
symbol or host object anywhere — provided every error object in the heap
carries only primitive (or throwing) non-standard own properties; those
extra error fields are the single raw-copy path in the serializer. -/
theorem C2_transportSafe (h : Heap) (hok : errExtrasOk h)
    (arg : JSVal) (depth maxDepth : Nat) :
    transportSafe (serializeForPostMessage h arg depth maxDepth) = true := by
  unfold serializeForPostMessage
  rcases hres : serialize h maxDepth arg depth [] with ⟨s2, r⟩
  rcases r with e | t
  · rfl
  · exact serializeG_transportSafe h maxDepth hok (max 1 (maxDepth + 2 - depth))
      arg depth [] s2 t hres

/-- Heap for the C2 witness: an error with a numeric `code` extra field. -/
def heapC2w : Heap := fun _ =>
  ObjData.err "Error" "boom" "st" [("code", PropVal.val (JSVal.num (JSNum.fin 42)))]

/-- Witness for the amended C2 at a concrete heap satisfying the side
condition. -/
theorem C2_transportSafe_witness :
    transportSafe (serializeForPostMessage heapC2w (JSVal.ref 0) 0 3) = true :=
  C2_transportSafe heapC2w
    (by
      intro id n m s extra hEq kv hkv
      injection hEq with h1 h2 h3 h4
      rw [← h4] at hkv
      simp only [List.mem_singleton] at hkv
      rw [hkv]
      rfl)
    (JSVal.ref 0) 0 3

/-- Heap with the self-referential object `a.self = a`. -/
def heapC3 : Heap := fun _ => ObjData.plain [("self", PropVal.val (JSVal.ref 0))]

/-- Claim C3: an object that the cycle tracker records (an array or plain
object — the only values ever added to the seen set) whose identity is
already in the seen set serializes to the literal `[Circular Reference]`
with the seen set unchanged, while a first visit serializes normally; in
particular, the self-referential object `a.self = a` serializes to a
mapping whose `self` entry is the circular marker. -/
theorem C3_second_visit_circular :
    (∀ (h : Heap) (maxD id d : Nat) (seen : List Nat),
      d ≤ maxD → id ∈ seen → tracked h id = true →
      serialize h maxD (JSVal.ref id) d seen =
        (seen, Except.ok (OutVal.str "[Circular Reference]"))) ∧
    serializeForPostMessage heapC3 (JSVal.ref 0) 0 3 =
      OutVal.obj (.cons "self" (.str "[Circular Reference]") .nil) := by
  constructor
  · intro h maxD id d seen hd hs htr
    rw [serialize_unfold]
    simp only [serializeG]
    rw [if_neg (by omega)]
    cases hh : h id with
    | err n m s extra => simp [tracked, hh] at htr
    | promise => simp [tracked, hh] at htr
    | date iso => simp [tracked, hh] at htr
    | regexp source flags => simp [tracked, hh] at htr
    | node nodeName nodeType element => simp [tracked, hh] at htr
    | func name src => simp [tracked, hh] at htr
    | arr elems =>
      simp only [hh]
      rw [if_pos hs]
      rfl
    | plain props =>
      simp only [hh]
      rw [if_pos hs]
      rfl
  · rfl

/-- Witness for C3's general part: the self-loop object at a second visit. -/
theorem C3_witness :
    serialize heapC3 3 (JSVal.ref 0) 1 [0] =
      ([0], Except.ok (OutVal.str "[Circular Reference]")) :=
  C3_second_visit_circular.1 heapC3 3 0 1 [0] (by decide) (by decide) (by decide)

/-- Heap for the C4 witness: a cyclic object. -/
def heapC4 : Heap := fun _ => ObjData.plain [("self", PropVal.val (JSVal.ref 0))]

/-- Claim C4: serialize terminates on every input, cyclic and deep ones
included, within a bounded number of recursive steps: the explicit stack
budget `max 1 (maxD + 2 - d)` (one unit per descent, where the tracked
depth strictly increases) is enough — any gas at least that bound computes
the very same result as `serialize`, and the budget never runs out (no
stack-overflow failure is ever produced). -/
theorem C4_terminates (h : Heap) (maxD : Nat) :
    (∀ g v d seen, max 1 (maxD + 2 - d) ≤ g →
      serializeG h maxD g v d seen = serialize h maxD v d seen) ∧
    (∀ v d seen, (serialize h maxD v d seen).2 ≠
      Except.error "Maximum call stack size exceeded") := by
  constructor
  · intro g v d seen hg
    exact serializeG_gasEq h maxD g (max 1 (maxD + 2 - d)) v d seen hg (le_refl _)
  · intro v d seen
    exact serializeG_noOverflow h maxD (max 1 (maxD + 2 - d)) v d seen (le_refl _)

/-- Witness for C4 on the cyclic self-loop. -/
theorem C4_witness :
    serializeG heapC4 3 10 (JSVal.ref 0) 0 [] = serialize heapC4 3 (JSVal.ref 0) 0 [] ∧
    (serialize heapC4 3 (JSVal.ref 0) 0 []).2 ≠
      Except.error "Maximum call stack size exceeded" :=
  ⟨(C4_terminates heapC4 3).1 10 (JSVal.ref 0) 0 [] (by decide),
   (C4_terminates heapC4 3).2 (JSVal.ref 0) 0 []⟩

/-- Heap with a chain of nested objects of depth exactly 3 below the root. -/
def heapC5 : Heap := fun i =>
  if i = 0 then ObjData.plain [("a", PropVal.val (JSVal.ref 1))]
  else if i = 1 then ObjData.plain [("b", PropVal.val (JSVal.ref 2))]
  else ObjData.plain [("c", PropVal.val (JSVal.str "x"))]

/-- Claim C5: every value reached at a depth exceeding maxDepth — null,
undefined and primitives included — serializes to `[Max Depth Exceeded]`
immediately, without the value being inspected; and with the default
maxDepth of 3, a chain of nested objects of depth exactly 3 below the root
serializes fully, with no depth marker anywhere in the result. -/
theorem C5_depth_guard :
    (∀ (h : Heap) (maxD : Nat) (v : JSVal) (d : Nat) (seen : List Nat),
      d > maxD → serialize h maxD v d seen =
        (seen, Except.ok (OutVal.str "[Max Depth Exceeded]"))) ∧
    serializeForPostMessage heapC5 (JSVal.ref 0) 0 3 =
      OutVal.obj (.cons "a" (.obj (.cons "b"
        (.obj (.cons "c" (.str "x") .nil)) .nil)) .nil) := by
  constructor
  · intro h maxD v d seen hd
    rw [serialize_unfold]
    simp only [serializeG]
    rw [if_pos hd]
  · rfl

/-- Witness for C5's depth guard at `null` just past the default bound. -/
theorem C5_witness :
    serialize heapC5 3 JSVal.null 4 [] =
      ([], Except.ok (OutVal.str "[Max Depth Exceeded]")) :=
  C5_depth_guard.1 heapC5 3 JSVal.null 4 [] (by decide)

/-- Claim C6: primitive passthrough and the non-finite numeric mappings —
at any depth within the bound, finite numbers, strings, booleans, null and
undefined serialize to themselves, while NaN and the two infinities map to
the literal strings `"NaN"`, `"Infinity"` and `"-Infinity"`. -/
theorem C6_primitives (h : Heap) (maxD d : Nat) (seen : List Nat)
    (hd : d ≤ maxD) :
    (∀ n : Int, serialize h maxD (JSVal.num (JSNum.fin n)) d seen =
      (seen, Except.ok (OutVal.num (JSNum.fin n)))) ∧
    (∀ s : String, serialize h maxD (JSVal.str s) d seen =
      (seen, Except.ok (OutVal.str s))) ∧
    (∀ b : Bool, serialize h maxD (JSVal.bool b) d seen =
      (seen, Except.ok (OutVal.bool b))) ∧
    serialize h maxD JSVal.null d seen = (seen, Except.ok OutVal.null) ∧
    serialize h maxD JSVal.undefined d seen = (seen, Except.ok OutVal.undefined) ∧
    serialize h maxD (JSVal.num JSNum.nan) d seen =
      (seen, Except.ok (OutVal.str "NaN")) ∧
    serialize h maxD (JSVal.num JSNum.inf) d seen =
      (seen, Except.ok (OutVal.str "Infinity")) ∧
    serialize h maxD (JSVal.num JSNum.negInf) d seen =
      (seen, Except.ok (OutVal.str "-Infinity")) := by
  have hguard : ¬ d > maxD := by omega
  refine ⟨?_, ?_, ?_, ?_, ?_, ?_, ?_, ?_⟩ <;>
    · try intro x
      rw [serialize_unfold]
      simp only [serializeG]
      rw [if_neg hguard]

/-- Heap for the C6 witness (no references are involved). -/
def heapC6 : Heap := fun _ => ObjData.plain []

/-- Witness for C6 at a finite number and at NaN. -/
theorem C6_witness :
    serialize heapC6 3 (JSVal.num (JSNum.fin 7)) 0 [] =
      ([], Except.ok (OutVal.num (JSNum.fin 7))) ∧
    serialize heapC6 3 (JSVal.num JSNum.nan) 0 [] =
      ([], Except.ok (OutVal.str "NaN")) :=
  ⟨(C6_primitives heapC6 3 0 [] (by decide)).1 7,
   (C6_primitives heapC6 3 0 [] (by decide)).2.2.2.2.2.1⟩

/-- Heap for the C7 counterexample: an error instance with an own property
named `__type`. -/
def heapC7x : Heap := fun _ =>
  ObjData.err "Error" "x" "st" [("__type", PropVal.val (JSVal.num (JSNum.fin 42)))]

/-- Counterexample to claim C7 as stated: an error instance carrying an own
property named `__type` overwrites the `'Error'` tag during the property
loop, so the returned record does not have `__type = 'Error'` — its
`__type` field is the error's own value `42`. -/
theorem C7_counterexample :
    ("__type", OutVal.str "Error") ∉
      fieldsToList (fieldsOf (serializeForPostMessage heapC7x (JSVal.ref 0) 0 3)) ∧
    getField (serializeForPostMessage heapC7x (JSVal.ref 0) 0 3) "__type" =
      some (OutVal.num (JSNum.fin 42)) := by
  constructor
  · decide
  · rfl

/-- Claim C7 (amended): for every error instance whose extra own property
names are pairwise distinct and do not include `__type` (an own `__type`
property would overwrite the tag), serialize returns the Error record:
it carries `__type = 'Error'`, `name`, `message` and `stack`, and every
other own property — its raw value on success, and the
`[Unable to access property]` fallback for exactly the fields whose read
throws, each affecting that field only. -/
theorem C7_error_record (h : Heap) (maxD id d : Nat) (seen : List Nat)
    (n m s : String) (extra : List (String × PropVal))
    (hd : d ≤ maxD) (hh : h id = ObjData.err n m s extra)
    (hnd : (extra.map Prod.fst).Nodup)
    (hty : ∀ kv ∈ extra, kv.1 ≠ "__type") :
    serialize h maxD (JSVal.ref id) d seen =
      (seen, Except.ok (getErrorDetails n m s extra)) ∧
    ("__type", OutVal.str "Error") ∈
      fieldsToList (fieldsOf (getErrorDetails n m s extra)) ∧
    ("name", OutVal.str n) ∈ fieldsToList (fieldsOf (getErrorDetails n m s extra)) ∧
    ("message", OutVal.str m) ∈ fieldsToList (fieldsOf (getErrorDetails n m s extra)) ∧
    ("stack", OutVal.str s) ∈ fieldsToList (fieldsOf (getErrorDetails n m s extra)) ∧
    (∀ k pv, (k, pv) ∈ extra → ¬(k = "name" ∨ k = "message" ∨ k = "stack") →
      (k, renderExtra pv) ∈ fieldsToList (fieldsOf (getErrorDetails n m s extra))) := by
  refine ⟨?_, ?_, ?_, ?_, ?_, ?_⟩
  · rw [serialize_unfold]
    simp only [serializeG]
    rw [if_neg (by omega)]
    simp only [hh]
  · simp only [getErrorDetails, fieldsOf]
    apply mem_addExtraProps_preserve
    · simp [errBase, fieldsToList]
    · intro kv hkv _
      exact hty kv hkv
  · simp only [getErrorDetails, fieldsOf]
    apply mem_addExtraProps_preserve
    · simp [errBase, fieldsToList]
    · intro kv hkv hstd heq
      exact hstd (Or.inl heq)
  · simp only [getErrorDetails, fieldsOf]
    apply mem_addExtraProps_preserve
    · simp [errBase, fieldsToList]
    · intro kv hkv hstd heq
      exact hstd (Or.inr (Or.inl heq))
  · simp only [getErrorDetails, fieldsOf]
    apply mem_addExtraProps_preserve
    · simp [errBase, fieldsToList]
    · intro kv hkv hstd heq
      exact hstd (Or.inr (Or.inr heq))
  · intro k pv hmem hstd
    simp only [getErrorDetails, fieldsOf]
    exact mem_addExtraProps_extra extra (errBase n m s) k pv hnd hmem hstd

/-- Heap for the C7 witness: an error with a numeric `code` field and one
field whose getter throws. -/
def heapC7w : Heap := fun _ =>
  ObjData.err "TypeError" "bad" "trace"
    [("code", PropVal.val (JSVal.num (JSNum.fin 42))), ("secret", PropVal.thrown "no")]

/-- Witness for the amended C7: `code = 42` survives raw, the throwing
`secret` field alone becomes the access fallback. -/
theorem C7_witness :
    serialize heapC7w 3 (JSVal.ref 0) 0 [] =
      ([], Except.ok (getErrorDetails "TypeError" "bad" "trace"
        [("code", PropVal.val (JSVal.num (JSNum.fin 42))),
         ("secret", PropVal.thrown "no")])) ∧
    ("code", OutVal.num (JSNum.fin 42)) ∈
      fieldsToList (fieldsOf (getErrorDetails "TypeError" "bad" "trace"
        [("code", PropVal.val (JSVal.num (JSNum.fin 42))),
         ("secret", PropVal.thrown "no")])) ∧
    ("secret", OutVal.str "[Unable to access property]") ∈
      fieldsToList (fieldsOf (getErrorDetails "TypeError" "bad" "trace"
        [("code", PropVal.val (JSVal.num (JSNum.fin 42))),
         ("secret", PropVal.thrown "no")])) :=
  ⟨(C7_error_record heapC7w 3 0 0 [] "TypeError" "bad" "trace"
      [("code", PropVal.val (JSVal.num (JSNum.fin 42))), ("secret", PropVal.thrown "no")]
      (by decide) rfl (by decide) (by decide)).1,
   (C7_error_record heapC7w 3 0 0 [] "TypeError" "bad" "trace"
      [("code", PropVal.val (JSVal.num (JSNum.fin 42))), ("secret", PropVal.thrown "no")]
      (by decide) rfl (by decide) (by decide)).2.2.2.2.2
     "code" (PropVal.val (JSVal.num (JSNum.fin 42))) (by decide) (by decide),
   (C7_error_record heapC7w 3 0 0 [] "TypeError" "bad" "trace"
      [("code", PropVal.val (JSVal.num (JSNum.fin 42))), ("secret", PropVal.thrown "no")]
      (by decide) rfl (by decide) (by decide)).2.2.2.2.2
     "secret" (PropVal.thrown "no") (by decide) (by decide)⟩

/-- Heap with an object having one throwing getter and one normal
property. -/
def heapC8 : Heap := fun _ =>
  ObjData.plain [("bad", PropVal.thrown "boom"), ("good", PropVal.val (JSVal.str "ok"))]

/-- Heap with an array whose first element is an invalid date (whose
serialization throws) and whose second is a plain string. -/
def heapC8x : Heap := fun i =>
  if i = 0 then ObjData.arr [JSVal.ref 1, JSVal.str "x"]
  else ObjData.date none

/-- Counterexample to claim C8 as stated: the claim also covers array-like
inputs, but the element map has no per-element catch — serializing the
array `[new Date(NaN), "x"]` throws out of the first element
(`toISOString`), aborting the sibling `"x"` and the overall call, which
collapses to the `SerializationError` record instead of a sequence with a
fallback entry in place. -/
theorem C8_counterexample :
    (serialize heapC8x 3 (JSVal.ref 0) 0 []).2 = Except.error "Invalid time value" ∧
    serializeForPostMessage heapC8x (JSVal.ref 0) 0 3 =
      OutVal.obj (.cons "__type" (.str "SerializationError")
        (.cons "message" (.str "Invalid time value")
          (.cons "value" (.str "Invalid Date,x") .nil))) :=
  ⟨rfl, rfl⟩

/-- Claim C8 (amended): for generic-object inputs, a failure while reading
or serializing one property never aborts sibling properties or the overall
call — the property loop emits one field per own property in order, a
property whose read throws is replaced in place by the
`[Unable to serialize: <message>]` fallback, and every other property
keeps its serialized value (concretely, an object with one throwing getter
and one normal property serializes to the mapping with the fallback for
the first and the value for the second); for arrays there is no
per-element recovery — a throwing element aborts the map at that element
and the failure propagates. -/
theorem C8_property_failure_isolated :
    (∀ (f : JSVal → Nat → List Nat → List Nat × Except String OutVal)
        (props : List (String × PropVal)) (d : Nat) (seen : List Nat),
      fieldsKeys ((serializePropsF f props d seen).2) = props.map Prod.fst) ∧
    (∀ (f : JSVal → Nat → List Nat → List Nat × Except String OutVal)
        (props : List (String × PropVal)) (d : Nat) (seen : List Nat) (k e : String),
      (k, PropVal.thrown e) ∈ props →
      (k, OutVal.str ("[Unable to serialize: " ++ e ++ "]")) ∈
        fieldsToList ((serializePropsF f props d seen).2)) ∧
    (∀ (f : JSVal → Nat → List Nat → List Nat × Except String OutVal)
        (x : JSVal) (rest : List JSVal) (d : Nat) (seen s1 : List Nat) (e : String),
      f x d seen = (s1, Except.error e) →
      serializeListF f (x :: rest) d seen = (s1, Except.error e)) ∧
    serializeForPostMessage heapC8 (JSVal.ref 0) 0 3 =
      OutVal.obj (.cons "bad" (.str "[Unable to serialize: boom]")
        (.cons "good" (.str "ok") .nil)) := by
  refine ⟨?_, ?_, ?_, rfl⟩
  · intro f props d seen
    exact serializePropsF_keys props d seen
  · intro f props d seen k e hmem
    exact serializePropsF_thrownMem props d seen k e hmem
  · intro f x rest d seen s1 e hEq
    simp only [serializeListF]
    rw [hEq]

/-- Witness for C8's general parts, instantiated at the serializer itself:
the two-property object, and the array whose first element throws. -/
theorem C8_witness :
    fieldsKeys ((serializePropsF (serializeG heapC8 3 4)
        [("bad", PropVal.thrown "boom"), ("good", PropVal.val (JSVal.str "ok"))]
        1 [0]).2) = ["bad", "good"] ∧
    ("bad", OutVal.str "[Unable to serialize: boom]") ∈
      fieldsToList ((serializePropsF (serializeG heapC8 3 4)
        [("bad", PropVal.thrown "boom"), ("good", PropVal.val (JSVal.str "ok"))]
        1 [0]).2) ∧
    serializeListF (serializeG heapC8x 3 4) [JSVal.ref 1, JSVal.str "x"] 1 [0] =
      ([0], Except.error "Invalid time value") :=
  ⟨C8_property_failure_isolated.1 (serializeG heapC8 3 4)
      [("bad", PropVal.thrown "boom"), ("good", PropVal.val (JSVal.str "ok"))] 1 [0],
   C8_property_failure_isolated.2.1 (serializeG heapC8 3 4)
      [("bad", PropVal.thrown "boom"), ("good", PropVal.val (JSVal.str "ok"))] 1 [0]
      "bad" "boom" (by decide),
   C8_property_failure_isolated.2.2.1 (serializeG heapC8x 3 4)
      (JSVal.ref 1) [JSVal.str "x"] 1 [0] [0] "Invalid time value" rfl⟩

/-- Heap for the C9 counterexample: a text node (`nodeType` 3), which is
not an element and has no id, className or innerHTML. -/
def heapC9x : Heap := fun _ => ObjData.node "#text" 3 none

/-- Counterexample to claim C9 as stated: the record built for a
non-element DOM node still has the `id` key — it is present with value
`undefined` rather than being omitted. -/
theorem C9_counterexample :
    getField (serializeForPostMessage heapC9x (JSVal.ref 0) 0 3) "id" =
      some OutVal.undefined ∧
    getField (serializeForPostMessage heapC9x (JSVal.ref 0) 0 3) "id" ≠ none := by
  constructor
  · rfl
  · decide

/-- Claim C9 (amended): every DOM node serializes to a `DOMNode` tagged
record carrying the node name and node type code; the `id`, `className`
and `innerHTML` keys are always present — they hold the element's
non-empty id/className string and its markup, and are set to `undefined`
(key present, not omitted) when the node is not an element or the
attribute is empty/absent. -/
theorem C9_domnode_record (h : Heap) (maxD id d : Nat) (seen : List Nat)
    (nn : String) (nt : Int) (el : Option ElementData)
    (hd : d ≤ maxD) (hs : id ∉ seen) (hh : h id = ObjData.node nn nt el) :
    serialize h maxD (JSVal.ref id) d seen =
      (seen, Except.ok (OutVal.obj (.cons "__type" (.str "DOMNode")
        (.cons "nodeName" (.str nn)
          (.cons "nodeType" (.num (.fin nt))
            (.cons "id" (nodeIdField el)
              (.cons "className" (nodeClassField el)
                (.cons "innerHTML" (nodeInnerHTMLField el) .nil)))))))) ∧
    nodeIdField none = OutVal.undefined ∧
    (∀ e : ElementData, e.idAttr ≠ "" → nodeIdField (some e) = OutVal.str e.idAttr) ∧
    (∀ e : ElementData, e.idAttr = "" → nodeIdField (some e) = OutVal.undefined) ∧
    nodeInnerHTMLField none = OutVal.undefined ∧
    (∀ e : ElementData, nodeInnerHTMLField (some e) = OutVal.str e.innerHTML) := by
  refine ⟨?_, rfl, ?_, ?_, rfl, fun e => rfl⟩
  · rw [serialize_unfold]
    simp only [serializeG]
    rw [if_neg (by omega)]
    simp only [hh]
    rw [if_neg hs]
  · intro e he
    simp [nodeIdField, he]
  · intro e he
    simp [nodeIdField, he]

/-- Heap for the C9 witness: a DIV element with empty id, a class and some
markup. -/
def heapC9w : Heap := fun _ => ObjData.node "DIV" 1 (some ⟨"", "box", "<p>hi</p>"⟩)

/-- Witness for the amended C9 on a concrete element node. -/
theorem C9_witness :
    serialize heapC9w 3 (JSVal.ref 0) 0 [] =
      ([], Except.ok (OutVal.obj (.cons "__type" (.str "DOMNode")
        (.cons "nodeName" (.str "DIV")
          (.cons "nodeType" (.num (.fin 1))
            (.cons "id" OutVal.undefined
              (.cons "className" (.str "box")
                (.cons "innerHTML" (.str "<p>hi</p>") .nil)))))))) :=
  (C9_domnode_record heapC9w 3 0 0 [] "DIV" 1 (some ⟨"", "box", "<p>hi</p>"⟩)
    (by decide) (by decide) rfl).1

/-- Heap for the C10 witness: an array holding the same date twice. -/
def heapC10 : Heap := fun i =>
  if i = 0 then ObjData.arr [JSVal.ref 1, JSVal.ref 1]
  else ObjData.date (some "1970-01-01T00:00:00.000Z")

/-- Claim C10: the cycle-tracking set only ever contains ids of arrays and
generic objects — every id in an outgoing seen set was already in the
incoming one or is tracked — and a value handled by a special-type branch
(error, promise, date, regexp, DOM node, function; `tracked` is false for
all of them) serializes independently of the seen set: the seen set is
left unchanged, a repeat occurrence computes exactly what a fresh first
visit computes (its full tagged record, or the same thrown failure for an
invalid date), and never the circular marker. -/
theorem C10_seen_tracked_special_revisit :
    (∀ (h : Heap) (maxD g : Nat) (v : JSVal) (d : Nat) (seen : List Nat) (i : Nat),
      i ∈ (serializeG h maxD g v d seen).1 → i ∈ seen ∨ tracked h i = true) ∧
    (∀ (h : Heap) (maxD id d : Nat) (seen : List Nat),
      d ≤ maxD → tracked h id = false → id ∉ seen →
      (serialize h maxD (JSVal.ref id) d seen).1 = seen ∧
      (serialize h maxD (JSVal.ref id) d seen).2 =
        (serialize h maxD (JSVal.ref id) d []).2 ∧
      (serialize h maxD (JSVal.ref id) d seen).2 ≠
        Except.ok (OutVal.str "[Circular Reference]")) := by
  constructor
  · intro h maxD g v d seen i hi
    exact serializeG_seenTracked h maxD g v d seen i hi
  · intro h maxD id d seen hd htr hs
    have hs0 : id ∉ ([] : List Nat) := by simp
    have hgd : ¬ d > maxD := by omega
    rw [serialize_unfold h maxD (JSVal.ref id) d seen,
      serialize_unfold h maxD (JSVal.ref id) d []]
    simp only [serializeG, if_neg hgd]
    cases hh : h id with
    | err n m s extra =>
      simp only [hh]
      exact ⟨trivial, trivial, by simp [getErrorDetails]⟩
    | promise =>
      simp only [hh]
      rw [if_neg hs, if_neg hs0]
      exact ⟨rfl, rfl, by simp⟩
    | date iso =>
      simp only [hh]
      rw [if_neg hs, if_neg hs0]
      cases iso with
      | some s => exact ⟨rfl, rfl, by simp⟩
      | none => exact ⟨rfl, rfl, by simp⟩
    | regexp source flags =>
      simp only [hh]
      rw [if_neg hs, if_neg hs0]
      exact ⟨rfl, rfl, by simp⟩
    | node nodeName nodeType element =>
      simp only [hh]
      rw [if_neg hs, if_neg hs0]
      exact ⟨rfl, rfl, by simp⟩
    | func name src =>
      simp only [hh]
      rw [if_neg hs, if_neg hs0]
      exact ⟨rfl, rfl, by simp⟩
    | arr elems => simp [tracked, hh] at htr
    | plain props => simp [tracked, hh] at htr

/-- Witness for C10: the array id 0 enters the seen set (it is tracked),
and the date id 1 — already serialized once as the first array element —
is serialized a second time with the seen set ignored, yielding its full
record and not the circular marker. -/
theorem C10_witness :
    (0 ∈ ([] : List Nat) ∨ tracked heapC10 0 = true) ∧
    (serialize heapC10 3 (JSVal.ref 1) 1 [0]).1 = [0] ∧
    (serialize heapC10 3 (JSVal.ref 1) 1 [0]).2 =
      (serialize heapC10 3 (JSVal.ref 1) 1 []).2 ∧
    (serialize heapC10 3 (JSVal.ref 1) 1 [0]).2 ≠
      Except.ok (OutVal.str "[Circular Reference]") :=
  ⟨C10_seen_tracked_special_revisit.1 heapC10 3 5 (JSVal.ref 0) 0 [] 0 (by decide),
   (C10_seen_tracked_special_revisit.2 heapC10 3 1 1 [0]
      (by decide) (by decide) (by decide)).1,
   (C10_seen_tracked_special_revisit.2 heapC10 3 1 1 [0]
      (by decide) (by decide) (by decide)).2.1,
   (C10_seen_tracked_special_revisit.2 heapC10 3 1 1 [0]
      (by decide) (by decide) (by decide)).2.2⟩
